import Mathlib

/-!
Verification of the MMLU evaluation harness (`eval_mmlu.py`, `test_api.py`).

Strings are modelled as `List Char`.  The Python `None`-able response is
`Option (List Char)`.  Floating-point accuracy values are modelled as exact
rationals (the quotients the source computes).  Regular-expression searches
are modelled by executable scanning functions that realize the `re.search`
(leftmost-match) and `re.findall` semantics of each concrete pattern that
appears in the source; the whitespace class and the word-character class are
modelled on their ASCII fragment, which is the fragment the claims exercise.
-/

/-- The whitespace characters recognized by `str.strip` and by the regex
class that the source's patterns use (ASCII fragment). -/
def isSpacePy (c : Char) : Bool :=
  c = ' ' || c = '\t' || c = '\n' || c = '\r' || c = '\x0b' || c = '\x0c'

/-- The four valid choice letters (the list `['A', 'B', 'C', 'D']` of the
source). -/
def choiceLetters : List Char := ['A', 'B', 'C', 'D']

/-- Membership in the four valid choice letters. -/
def isChoice (c : Char) : Bool := choiceLetters.contains c

/-- Word characters for the word-boundary class of the tier-3 pattern
(ASCII fragment: letters, digits, underscore). -/
def isWordChar (c : Char) : Bool := c.isAlphanum || c = '_'

/-- The normalization `response.strip().upper()` of the source: trim whitespace on both ends,
then uppercase. -/
def normalizeResponse (s : List Char) : List Char :=
  (((s.dropWhile isSpacePy).reverse.dropWhile isSpacePy).reverse).map Char.toUpper

/-- Tier 1 of the extractor: `if response in ['A', 'B', 'C', 'D']` — the
whole normalized text is exactly one letter. -/
def exactLetter : List Char → Option Char
  | [c] => if isChoice c then some c else none
  | _ => none

/-- Anchored test of the boxed pattern at the current position: a literal
backslash, `BOXED`, an opening brace, a captured choice letter, a closing
brace. -/
def boxedAt : List Char → Option Char
  | '\\' :: 'B' :: 'O' :: 'X' :: 'E' :: 'D' :: '\x7b' :: c :: '\x7d' :: _ =>
    if isChoice c then some c else none
  | _ => none

/-- Anchored test, at the current position, of a pattern of the form
"literal, then whitespace-star, then a captured choice letter".  Eight of the
source's eleven patterns have this shape.  Because the whitespace class and
the choice letters are disjoint, the greedy whitespace-star match is
equivalent to skipping the maximal whitespace run. -/
def litWsLetterAt (lit : List Char) (t : List Char) : Option Char :=
  if lit.isPrefixOf t then
    match (t.drop lit.length).dropWhile isSpacePy with
    | c :: _ => if isChoice c then some c else none
    | [] => none
  else none

/-- The `re.search` semantics for an anchored position test `f`: try `f` at
every start position from left to right (including the final empty suffix)
and return its first hit. -/
def searchScan (f : List Char → Option Char) : List Char → Option Char
  | [] => f []
  | c :: rest =>
    match f (c :: rest) with
    | some x => some x
    | none => searchScan f rest

/-- The anchored pattern "start, captured choice letter, optional period,
end".  Without MULTILINE, the end anchor also matches just before one final
newline. -/
def patLetterDot : List Char → Option Char
  | [c] => if isChoice c then some c else none
  | [c, '.'] => if isChoice c then some c else none
  | [c, '\n'] => if isChoice c then some c else none
  | [c, '.', '\n'] => if isChoice c then some c else none
  | _ => none

/-- The anchored pattern "start, captured choice letter, whitespace-star,
then a dash or colon". -/
def patLetterColonDash : List Char → Option Char
  | [] => none
  | c :: rest =>
    if isChoice c then
      match rest.dropWhile isSpacePy with
      | d :: _ => if d = '-' ∨ d = ':' then some c else none
      | [] => none
    else none

/-- The anchored pattern "start, whitespace-star, captured choice letter,
whitespace-star, end": the whole text is one letter surrounded only by
whitespace. -/
def patLoneLetterWs (t : List Char) : Option Char :=
  match t.dropWhile isSpacePy with
  | c :: rest => if isChoice c && rest.all isSpacePy then some c else none
  | [] => none

/-- The tier-2 pattern list of the source, in source order: the boxed
marker, four bilingual "the answer is X / choose X" forms, three English
"the correct answer is X / answer: X / answer is X" forms, the
letter-optional-period line, the letter-colon-or-dash form, and the
whitespace-surrounded lone letter. -/
def patternSearches : List (List Char → Option Char) :=
  [ searchScan boxedAt,
    searchScan (litWsLetterAt ['答', '案', '是']),
    searchScan (litWsLetterAt ['选', '择']),
    searchScan (litWsLetterAt ['答', '案', '：']),
    searchScan (litWsLetterAt ['选', '择', '：']),
    searchScan (litWsLetterAt "THE CORRECT ANSWER IS".toList),
    searchScan (litWsLetterAt "ANSWER:".toList),
    searchScan (litWsLetterAt "ANSWER IS".toList),
    patLetterDot,
    patLetterColonDash,
    patLoneLetterWs ]

/-- Tier 3: `re.findall` of a word-boundary-delimited choice letter.  Since
every match has length one, the findall result is the list of positions
holding a choice letter whose neighbours (when present) are non-word
characters.  `prev` is the character just before the current position. -/
def boundaryLetters (prev : Option Char) : List Char → List Char
  | [] => []
  | c :: rest =>
    let beforeOk := match prev with
      | none => true
      | some p => !isWordChar p
    let afterOk := match rest.head? with
      | none => true
      | some n => !isWordChar n
    if isChoice c && beforeOk && afterOk then
      c :: boundaryLetters (some c) rest
    else
      boundaryLetters (some c) rest

/-- The extractor `MMLUEvaluator.extract_answer` of `eval_mmlu.py`: absent and empty
responses yield `none`; otherwise the text is normalized and the four tiers
are tried in order — exact single letter, the eleven structured patterns,
the last word-boundary-delimited letter, the first raw choice character. -/
def extract_answer : Option (List Char) → Option Char
  | none => none
  | some s =>
    if s.isEmpty then none
    else
      let t := normalizeResponse s
      match exactLetter t with
      | some c => some c
      | none =>
        match List.findSome? (fun p => p t) patternSearches with
        | some c => some c
        | none =>
          match (boundaryLetters none t).getLast? with
          | some c => some c
          | none => List.find? isChoice t

/-- The extractor `extract_answer_from_response` of `test_api.py`: the same normalization,
the same tier order, the same eleven patterns, the same fallbacks. -/
def extract_answer_from_response : Option (List Char) → Option Char
  | none => none
  | some s =>
    if s.isEmpty then none
    else
      let t := normalizeResponse s
      match exactLetter t with
      | some c => some c
      | none =>
        match List.findSome? (fun p => p t) patternSearches with
        | some c => some c
        | none =>
          match (boundaryLetters none t).getLast? with
          | some c => some c
          | none => List.find? isChoice t

/-- One dataset row, as handed over by the CSV reader.  Per the stated
precondition of the evaluator (rows missing required fields are not part of
the model; in the source they would be skipped by the per-row guard), every
field is present. -/
structure Row where
  input : List Char
  A : List Char
  B : List Char
  C : List Char
  D : List Char
  target : List Char
deriving DecidableEq

/-- One entry of the per-row detail log built by `evaluate_dataset`. -/
structure Detail where
  question_id : Nat
  question : List Char
  optionA : List Char
  optionB : List Char
  optionC : List Char
  optionD : List Char
  correct_answer : List Char
  predicted_answer : Option Char
  raw_response : Option (List Char)
  is_correct : Bool
deriving DecidableEq

/-- The per-dataset result record of `evaluate_dataset`. -/
structure Results where
  correct : Nat
  total : Nat
  accuracy : ℚ
  details : List Detail
  errors : List Detail
deriving DecidableEq

/-- The initial result record of the source: all counters zero, accuracy
0.0, empty detail and error logs. -/
def initResults : Results :=
  { correct := 0, total := 0, accuracy := 0, details := [], errors := [] }

/-- The detail record built for row `i` (zero-based) from the raw API
response: the prediction is extracted and compared with the row's target;
the Python comparison `predicted_answer == correct_answer` is false whenever
the prediction is absent (the target is a present string). -/
def mkDetail (i : Nat) (row : Row) (response : Option (List Char)) : Detail :=
  let predicted := extract_answer response
  { question_id := i + 1,
    question := row.input,
    optionA := row.A,
    optionB := row.B,
    optionC := row.C,
    optionD := row.D,
    correct_answer := row.target,
    predicted_answer := predicted,
    raw_response := response,
    is_correct :=
      match predicted with
      | some c => [c] == row.target
      | none => false }

/-- The evaluation loop of `evaluate_dataset` over the selected rows.  `api`
gives the raw response of the i-th call (the model-client boundary: `none`
is a failed call).  `excAfter = some k` means the environment raises an
exception at the progress-print/sleep point of the row with index `k` (the
one point of the loop body outside `call_api`'s own handler where a raised
exception reaches the surrounding handler); the row's accumulation is
already done there, and the surrounding handler returns the accumulated
record as-is, flagged so that the final accuracy computation is skipped. -/
def runRowsAux (api : Nat → Option (List Char)) (excAfter : Option Nat) :
    Nat → List Row → Results → Results × Bool
  | _, [], acc => (acc, false)
  | i, row :: rest, acc =>
    let d := mkDetail i row (api i)
    let acc' : Results :=
      { correct := acc.correct + (if d.is_correct then 1 else 0),
        total := acc.total + 1,
        accuracy := acc.accuracy,
        details := acc.details ++ [d],
        errors := acc.errors ++ (if d.is_correct then [] else [d]) }
    if excAfter = some i then (acc', true)
    else runRowsAux api excAfter (i + 1) rest acc'

/-- The rows the loop actually processes when started at index `i`: all of
them, unless the exception index is reached first. -/
def takeToExc (excAfter : Option Nat) (i : Nat) (rows : List Row) : List Row :=
  match excAfter with
  | none => rows
  | some k => if k < i then rows else rows.take (k + 1 - i)

/-- Whether the loop started at index `i` over `rows` is ended early by the
exception. -/
def excHit (excAfter : Option Nat) (i : Nat) (rows : List Row) : Bool :=
  match excAfter with
  | none => false
  | some k => decide (i ≤ k) && decide (k < i + rows.length)

/-- The detail records of a run over `rows` starting at index `i`, in row
order, one per row. -/
def detailsOf (api : Nat → Option (List Char)) : Nat → List Row → List Detail
  | _, [] => []
  | i, row :: rest => mkDetail i row (api i) :: detailsOf api (i + 1) rest

/-- The required column names of the source. -/
def requiredColumns : List (List Char) :=
  ["input".toList, "A".toList, "B".toList, "C".toList, "D".toList,
   "target".toList]

/-- The required columns absent from the file's field names. -/
def missingColumns (fieldnames : List (List Char)) : List (List Char) :=
  requiredColumns.filter (fun col => !fieldnames.contains col)

/-- The row-selection step of the source:
`if sample_size and sample_size < len(rows): rows = random.sample(rows, sample_size)`.
`random.sample` (library code outside the repository) is a parameter; its
contract — the result has length `sample_size` and is drawn from `rows`
without replacement — enters the theorems as a hypothesis.  A `sample_size`
of zero is falsy in Python, so it disables sampling. -/
def chosenRows (sampler : List Row → Nat → List Row) (rows : List Row)
    (sample_size : Option Nat) : List Row :=
  match sample_size with
  | none => rows
  | some k => if k ≠ 0 ∧ k < rows.length then sampler rows k else rows

/-- The evaluator `MMLUEvaluator.evaluate_dataset`: an empty file or a file missing a
required column returns the initial all-zero record; otherwise the selected
rows are evaluated in order and, unless an exception ended the loop early,
the accuracy is finally recomputed as correct/total when total is
positive. -/
def evaluate_dataset (api : Nat → Option (List Char)) (excAfter : Option Nat)
    (sampler : List Row → Nat → List Row) (fieldnames : List (List Char))
    (rows : List Row) (sample_size : Option Nat) : Results :=
  if rows = [] then initResults
  else if missingColumns fieldnames ≠ [] then initResults
  else
    let selected := chosenRows sampler rows sample_size
    let out := runRowsAux api excAfter 0 selected initResults
    if out.2 then out.1
    else if out.1.total > 0 then
      { out.1 with accuracy := (out.1.correct : ℚ) / (out.1.total : ℚ) }
    else out.1

/-- The accumulation loop of `main` over the per-dataset results:
`total_correct += results['correct']; total_questions += results['total']`. -/
def mainTotals (rs : List Results) : Nat × Nat :=
  rs.foldl (fun acc r => (acc.1 + r.correct, acc.2 + r.total)) (0, 0)

/-- The overall result record assembled by `main`.  The timestamp and the
configuration snapshot it also stores are environment data with no bearing
on any claim and carry no logic.  `overall_accuracy` is optional because the
source sets the key only inside `if overall_results['total_questions'] > 0`. -/
structure OverallResult where
  total_correct : Nat
  total_questions : Nat
  dataset_results : List (List Char × ℚ × Nat × Nat)
  overall_accuracy : Option ℚ
deriving DecidableEq

/-- The aggregation of `main` over the evaluated datasets (name paired with
per-dataset result, in evaluation order): summed totals, a per-dataset
summary, and the overall accuracy computed only when there was at least one
question. -/
def mainAggregate (ds : List (List Char × Results)) : OverallResult :=
  let folded := mainTotals (ds.map Prod.snd)
  { total_correct := folded.1,
    total_questions := folded.2,
    dataset_results := ds.map (fun p => (p.1, p.2.accuracy, p.2.correct, p.2.total)),
    overall_accuracy :=
      if folded.2 > 0 then some ((folded.1 : ℚ) / (folded.2 : ℚ)) else none }

/-- The literal character sequence that the boxed pattern matches: a
backslash, `BOXED`, an opening brace, the letter, a closing brace (the
normalized text is uppercase, so a lowercase boxed marker in the raw
response also reaches this form). -/
def boxedLit (x : Char) : List Char :=
  ['\\', 'B', 'O', 'X', 'E', 'D', '\x7b', x, '\x7d']

/-- Executable substring test: `subOccurs l t` holds iff `l` occurs
contiguously inside `t`. -/
def subOccurs (l : List Char) : List Char → Bool
  | [] => l.isEmpty
  | c :: rest => l.isPrefixOf (c :: rest) || subOccurs l rest

/-- A concrete well-formed dataset row used as a test fixture: question
"Q", options 1/2/3/4, ground truth A. -/
def wRow : Row :=
  ⟨"Q".toList, "1".toList, "2".toList, "3".toList, "4".toList, "A".toList⟩

/-- A concrete model-client behaviour used as a test fixture: the first
call answers "A", every later call answers "B". -/
def wApi : Nat → Option (List Char) :=
  fun i => if i = 0 then some "A".toList else some "B".toList

/-- A concrete admissible `random.sample` outcome used as a test fixture:
the first `k` rows (a size-`k` subsequence, hence drawn without
replacement). -/
def wSampler : List Row → Nat → List Row :=
  fun rows k => rows.take k

lemma takeToExc_nil (exc : Option Nat) (i : Nat) : takeToExc exc i [] = [] := by
  cases exc with
  | none => rfl
  | some k => simp [takeToExc]

lemma excHit_nil (exc : Option Nat) (i : Nat) : excHit exc i [] = false := by
  cases exc with
  | none => rfl
  | some k =>
    simp only [excHit, List.length_nil, Nat.add_zero]
    rcases Nat.lt_or_ge k i with hlt | hge
    · rw [decide_eq_false (show ¬ i ≤ k by omega), Bool.false_and]
    · rw [decide_eq_false (show ¬ k < i by omega), Bool.and_false]

lemma takeToExc_cons (exc : Option Nat) (i : Nat) (row : Row) (rest : List Row)
    (h : exc ≠ some i) :
    takeToExc exc i (row :: rest) = row :: takeToExc exc (i + 1) rest := by
  cases exc with
  | none => rfl
  | some k =>
    have hk : k ≠ i := by intro hki; exact h (by rw [hki])
    simp only [takeToExc]
    rcases Nat.lt_or_ge k i with hlt | hge
    · rw [if_pos hlt, if_pos (show k < i + 1 by omega)]
    · have hgt : i < k := by omega
      rw [if_neg (show ¬ k < i by omega), if_neg (show ¬ k < i + 1 by omega)]
      have h1 : k + 1 - i = (k - i) + 1 := by omega
      have h2 : k + 1 - (i + 1) = k - i := by omega
      rw [h1, h2, List.take_succ_cons]

lemma excHit_cons (exc : Option Nat) (i : Nat) (row : Row) (rest : List Row)
    (h : exc ≠ some i) :
    excHit exc i (row :: rest) = excHit exc (i + 1) rest := by
  cases exc with
  | none => rfl
  | some k =>
    have hk : k ≠ i := by intro hki; exact h (by rw [hki])
    simp only [excHit, List.length_cons]
    rcases Nat.lt_or_ge k i with hlt | hge
    · simp only [decide_eq_false (by omega : ¬ i ≤ k),
        decide_eq_false (by omega : ¬ i + 1 ≤ k), Bool.false_and]
    · simp only [decide_eq_true (by omega : i ≤ k),
        decide_eq_true (by omega : i + 1 ≤ k), Bool.true_and]
      rw [decide_eq_decide]
      omega

/-- Full characterization of the evaluation loop: starting at index `i` with
accumulator `acc`, it processes exactly the rows up to the exception point,
appending one detail per row in order, counting the correct ones, keeping
the incorrect ones as errors, leaving the accuracy untouched, and reporting
whether the exception ended it early. -/
theorem runRowsAux_spec (api : Nat → Option (List Char)) (exc : Option Nat)
    (rows : List Row) : ∀ (i : Nat) (acc : Results),
    runRowsAux api exc i rows acc =
      ({ correct := acc.correct +
            ((detailsOf api i (takeToExc exc i rows)).filter (fun d => d.is_correct)).length,
         total := acc.total + (takeToExc exc i rows).length,
         accuracy := acc.accuracy,
         details := acc.details ++ detailsOf api i (takeToExc exc i rows),
         errors := acc.errors ++
            (detailsOf api i (takeToExc exc i rows)).filter (fun d => !d.is_correct) },
       excHit exc i rows) := by
  induction rows with
  | nil =>
    intro i acc
    cases acc
    rw [takeToExc_nil, excHit_nil]
    simp [runRowsAux, detailsOf]
  | cons row rest ih =>
    intro i acc
    by_cases hexc : exc = some i
    · subst hexc
      have hstep : runRowsAux api (some i) i (row :: rest) acc =
          ({ correct := acc.correct +
                (if (mkDetail i row (api i)).is_correct then 1 else 0),
             total := acc.total + 1,
             accuracy := acc.accuracy,
             details := acc.details ++ [mkDetail i row (api i)],
             errors := acc.errors ++
               (if (mkDetail i row (api i)).is_correct then []
                else [mkDetail i row (api i)]) },
           true) := by
        simp [runRowsAux]
      rw [hstep]
      have htake : takeToExc (some i) i (row :: rest) = [row] := by
        simp only [takeToExc]
        rw [if_neg (show ¬ i < i by omega), show i + 1 - i = 1 by omega,
          List.take_succ_cons, List.take_zero]
      have hhit : excHit (some i) i (row :: rest) = true := by
        simp only [excHit, List.length_cons]
        rw [decide_eq_true (Nat.le_refl i),
          decide_eq_true (show i < i + (rest.length + 1) by omega), Bool.true_and]
      rw [htake, hhit, Prod.mk.injEq]
      refine ⟨?_, rfl⟩
      simp only [detailsOf, List.filter_cons, List.filter_nil]
      congr 1
      · cases hd : (mkDetail i row (api i)).is_correct <;> simp [hd]
      · cases hd : (mkDetail i row (api i)).is_correct <;> simp [hd]
    · have hstep : runRowsAux api exc i (row :: rest) acc =
          runRowsAux api exc (i + 1) rest
            { correct := acc.correct +
                (if (mkDetail i row (api i)).is_correct then 1 else 0),
              total := acc.total + 1,
              accuracy := acc.accuracy,
              details := acc.details ++ [mkDetail i row (api i)],
              errors := acc.errors ++
                (if (mkDetail i row (api i)).is_correct then []
                 else [mkDetail i row (api i)]) } := by
        simp [runRowsAux, hexc]
      rw [hstep, ih (i + 1)]
      rw [takeToExc_cons exc i row rest hexc, excHit_cons exc i row rest hexc]
      rw [Prod.mk.injEq]
      refine ⟨?_, rfl⟩
      simp only [detailsOf, List.filter_cons, List.length_cons]
      congr 1
      · cases hd : (mkDetail i row (api i)).is_correct
        · simp [hd]
        · simp [hd]
          omega
      · omega
      · simp [List.append_assoc]
      · cases hd : (mkDetail i row (api i)).is_correct <;>
          simp [hd, List.append_assoc]

example : extract_answer (some "A".toList) = some 'A' := by decide
example : extract_answer (some "  b  ".toList) = some 'B' := by decide
example : extract_answer (some "The answer is B and not A".toList) = some 'B' := by decide
example : extract_answer (some "XYZ789".toList) = none := by decide
example : extract_answer (some "xyz789".toList) = none := by decide
example : extract_answer (some "SO B: NO, C".toList) = some 'C' := by decide
example : extract_answer (some "B: HELLO".toList) = some 'B' := by decide
example : extract_answer (some ['\\', 'b', 'o', 'x', 'e', 'd', '\x7b', 'c', '\x7d']) = some 'C' := by decide

lemma ite_some_eq {P : Prop} [Decidable P] {a b : Char}
    (h : (if P then some a else none) = some b) : P ∧ a = b := by
  split at h
  · cases h; exact ⟨by assumption, rfl⟩
  · cases h

lemma exactLetter_range (t : List Char) (c : Char)
    (h : exactLetter t = some c) : isChoice c = true := by
  cases t with
  | nil => cases h
  | cons a rest =>
    cases rest with
    | nil =>
      simp only [exactLetter] at h
      obtain ⟨hP, rfl⟩ := ite_some_eq h
      exact hP
    | cons b rest2 => cases h

lemma boxedAt_range (t : List Char) (c : Char)
    (h : boxedAt t = some c) : isChoice c = true := by
  unfold boxedAt at h
  split at h
  · obtain ⟨hP, rfl⟩ := ite_some_eq h
    exact hP
  · cases h

lemma litWsLetterAt_range (lit t : List Char) (c : Char)
    (h : litWsLetterAt lit t = some c) : isChoice c = true := by
  unfold litWsLetterAt at h
  split at h
  · split at h
    · obtain ⟨hP, rfl⟩ := ite_some_eq h
      exact hP
    · cases h
  · cases h

lemma patLetterDot_range (t : List Char) (c : Char)
    (h : patLetterDot t = some c) : isChoice c = true := by
  unfold patLetterDot at h
  split at h <;>
    first
      | (obtain ⟨hP, rfl⟩ := ite_some_eq h; exact hP)
      | cases h

lemma patLetterColonDash_range (t : List Char) (c : Char)
    (h : patLetterColonDash t = some c) : isChoice c = true := by
  unfold patLetterColonDash at h
  split at h
  · cases h
  · rename_i a rest
    split at h
    · rename_i hA
      split at h
      · obtain ⟨hP, rfl⟩ := ite_some_eq h
        exact hA
      · cases h
    · cases h

lemma patLoneLetterWs_range (t : List Char) (c : Char)
    (h : patLoneLetterWs t = some c) : isChoice c = true := by
  unfold patLoneLetterWs at h
  split at h
  · rename_i a rest
    split at h
    · rename_i hcond
      cases h
      exact ((Bool.and_eq_true _ _).mp hcond).1
    · cases h
  · cases h

lemma searchScan_range (f : List Char → Option Char)
    (hf : ∀ u c, f u = some c → isChoice c = true) :
    ∀ (t : List Char) (c : Char), searchScan f t = some c → isChoice c = true := by
  intro t
  induction t with
  | nil =>
    intro c h
    rw [searchScan] at h
    exact hf [] c h
  | cons a rest ih =>
    intro c h
    rw [searchScan] at h
    cases hfa : f (a :: rest) with
    | some x =>
      rw [hfa] at h
      cases h
      exact hf _ _ hfa
    | none =>
      rw [hfa] at h
      exact ih c h

lemma patterns_range (p : List Char → Option Char) (hp : p ∈ patternSearches) :
    ∀ (t : List Char) (c : Char), p t = some c → isChoice c = true := by
  simp only [patternSearches, List.mem_cons, List.not_mem_nil, or_false] at hp
  rcases hp with rfl | rfl | rfl | rfl | rfl | rfl | rfl | rfl | rfl | rfl | rfl
  · exact searchScan_range _ boxedAt_range
  · exact searchScan_range _ (litWsLetterAt_range _)
  · exact searchScan_range _ (litWsLetterAt_range _)
  · exact searchScan_range _ (litWsLetterAt_range _)
  · exact searchScan_range _ (litWsLetterAt_range _)
  · exact searchScan_range _ (litWsLetterAt_range _)
  · exact searchScan_range _ (litWsLetterAt_range _)
  · exact searchScan_range _ (litWsLetterAt_range _)
  · exact patLetterDot_range
  · exact patLetterColonDash_range
  · exact patLoneLetterWs_range

lemma findSome_head {α : Type} (f : α → Option Char) (a : α) (l : List α)
    (c : Char) (h : f a = some c) :
    List.findSome? f (a :: l) = some c := by
  simp [List.findSome?, h]

lemma findSome_skip {α : Type} (f : α → Option Char) (a : α) (l : List α)
    (h : f a = none) : List.findSome? f (a :: l) = List.findSome? f l := by
  simp [List.findSome?, h]

lemma findSome_range {α : Type} (f : α → Option Char) :
    ∀ (l : List α),
      (∀ a ∈ l, ∀ c0, f a = some c0 → isChoice c0 = true) →
      ∀ c, l.findSome? f = some c → isChoice c = true := by
  intro l
  induction l with
  | nil =>
    intro _ c h
    simp [List.findSome?] at h
  | cons a rest ih =>
    intro hall c h
    cases hfa : f a with
    | some c0 =>
      rw [findSome_head f a rest c0 hfa] at h
      cases h
      exact hall a (by simp) _ hfa
    | none =>
      rw [findSome_skip f a rest hfa] at h
      exact ih (fun b hb => hall b (by simp [hb])) c h

lemma boundaryLetters_range :
    ∀ (t : List Char) (prev : Option Char) (c : Char),
      c ∈ boundaryLetters prev t → isChoice c = true := by
  intro t
  induction t with
  | nil =>
    intro prev c h
    simp [boundaryLetters] at h
  | cons a rest ih =>
    intro prev c h
    simp only [boundaryLetters] at h
    split at h
    · rename_i hcond
      rcases List.mem_cons.mp h with rfl | hmem
      · exact ((Bool.and_eq_true _ _).mp ((Bool.and_eq_true _ _).mp hcond).1).1
      · exact ih (some a) c hmem
    · exact ih (some a) c h

lemma extract_answer_eq (s : List Char) (hs : ¬ s.isEmpty = true) :
    extract_answer (some s) =
      (match exactLetter (normalizeResponse s) with
      | some c => some c
      | none =>
        match List.findSome? (fun p => p (normalizeResponse s)) patternSearches with
        | some c => some c
        | none =>
          match (boundaryLetters none (normalizeResponse s)).getLast? with
          | some c => some c
          | none => List.find? isChoice (normalizeResponse s)) := by
  simp only [extract_answer]
  rw [if_neg hs]

lemma isPrefixOf_exists : ∀ (l t : List Char),
    l.isPrefixOf t = true ↔ ∃ post, l ++ post = t := by
  intro l
  induction l with
  | nil =>
    intro t
    simp [List.isPrefixOf]
  | cons c cs ih =>
    intro t
    cases t with
    | nil => simp [List.isPrefixOf]
    | cons d ds =>
      simp only [List.isPrefixOf, Bool.and_eq_true, beq_iff_eq, ih,
        List.cons_append, List.cons.injEq]
      constructor
      · rintro ⟨rfl, post, rfl⟩
        exact ⟨post, rfl, rfl⟩
      · rintro ⟨post, rfl, h⟩
        exact ⟨rfl, post, h⟩

lemma subOccurs_iff : ∀ (t l : List Char),
    subOccurs l t = true ↔ ∃ pre post, pre ++ l ++ post = t := by
  intro t
  induction t with
  | nil =>
    intro l
    simp only [subOccurs, List.isEmpty_iff]
    constructor
    · rintro rfl
      exact ⟨[], [], rfl⟩
    · rintro ⟨pre, post, h⟩
      rcases List.append_eq_nil.mp h with ⟨h1, -⟩
      exact (List.append_eq_nil.mp h1).2
  | cons c rest ih =>
    intro l
    simp only [subOccurs, Bool.or_eq_true]
    constructor
    · rintro (hpre | hsub)
      · obtain ⟨post, hp⟩ := (isPrefixOf_exists l (c :: rest)).mp hpre
        exact ⟨[], post, by simpa using hp⟩
      · obtain ⟨pre, post, hp⟩ := (ih l).mp hsub
        exact ⟨c :: pre, post, by simp [hp]⟩
    · rintro ⟨pre, post, hp⟩
      cases pre with
      | nil =>
        left
        exact (isPrefixOf_exists l (c :: rest)).mpr ⟨post, by simpa using hp⟩
      | cons p pre2 =>
        right
        apply (ih l).mpr
        refine ⟨pre2, post, ?_⟩
        simp only [List.cons_append, List.cons.injEq] at hp
        exact hp.2

lemma boxedAt_sound (t : List Char) (c : Char) (h : boxedAt t = some c) :
    isChoice c = true ∧ ∃ post, boxedLit c ++ post = t := by
  unfold boxedAt at h
  split at h
  · rename_i c1 tail
    obtain ⟨hP, rfl⟩ := ite_some_eq h
    exact ⟨hP, ⟨tail, by simp [boxedLit]⟩⟩
  · cases h

lemma searchScan_boxed_sound : ∀ (t : List Char) (c : Char),
    searchScan boxedAt t = some c →
    isChoice c = true ∧ ∃ pre post, pre ++ boxedLit c ++ post = t := by
  intro t
  induction t with
  | nil =>
    intro c h
    rw [show searchScan boxedAt [] = none from rfl] at h
    cases h
  | cons c0 rest ih =>
    intro c h
    cases hb : boxedAt (c0 :: rest) with
    | some x =>
      rw [searchScan, hb] at h
      cases h
      obtain ⟨hc, post, hp⟩ := boxedAt_sound _ _ hb
      exact ⟨hc, [], post, by simpa using hp⟩
    | none =>
      rw [searchScan, hb] at h
      obtain ⟨hc, pre, post, hp⟩ := ih c h
      exact ⟨hc, c0 :: pre, post, by simp [hp]⟩

lemma searchScan_boxed_complete : ∀ (t : List Char) (x : Char),
    isChoice x = true → (∃ pre post, pre ++ boxedLit x ++ post = t) →
    ∃ c, searchScan boxedAt t = some c := by
  intro t
  induction t with
  | nil =>
    rintro x hx ⟨pre, post, hp⟩
    exfalso
    have hl := congrArg List.length hp
    simp [boxedLit] at hl
  | cons c0 rest ih =>
    rintro x hx ⟨pre, post, hp⟩
    cases hb : boxedAt (c0 :: rest) with
    | some y => exact ⟨y, by rw [searchScan, hb]⟩
    | none =>
      cases pre with
      | nil =>
        exfalso
        simp only [List.nil_append] at hp
        have hbx : boxedAt (c0 :: rest) = some x := by
          rw [← hp]
          simp [boxedLit, boxedAt, hx]
        rw [hbx] at hb
        cases hb
      | cons p pre2 =>
        simp only [List.cons_append, List.cons.injEq] at hp
        obtain ⟨c1, hc1⟩ := ih x hx ⟨pre2, post, hp.2⟩
        refine ⟨c1, ?_⟩
        rw [searchScan, hb]
        exact hc1

/-- C5: `extract_answer` is a total function (the embedding itself is
total, matching the source's never-raises contract): absent and empty
responses both yield `none`, and on every input the result is either `none`
or one of the four letters A, B, C, D — no tier can produce any other
value. -/
theorem extract_answer_total_range :
    extract_answer none = none ∧
    extract_answer (some []) = none ∧
    ∀ r, extract_answer r = none ∨
      ∃ c, extract_answer r = some c ∧ isChoice c = true := by
  refine ⟨rfl, rfl, ?_⟩
  intro r
  cases r with
  | none => exact Or.inl rfl
  | some s =>
    cases hse : s.isEmpty with
    | true =>
      left
      simp [extract_answer, hse]
    | false =>
      have hs : ¬ s.isEmpty = true := by simp [hse]
      rw [extract_answer_eq s hs]
      cases h1 : exactLetter (normalizeResponse s) with
      | some c => exact Or.inr ⟨c, rfl, exactLetter_range _ _ h1⟩
      | none =>
        cases h2 : List.findSome? (fun p => p (normalizeResponse s))
            patternSearches with
        | some c =>
          refine Or.inr ⟨c, rfl, ?_⟩
          refine findSome_range _ patternSearches ?_ c h2
          intro p hp c0 hc0
          exact patterns_range p hp _ c0 hc0
        | none =>
          cases h3 : (boundaryLetters none (normalizeResponse s)).getLast? with
          | some c =>
            have hmem : c ∈ boundaryLetters none (normalizeResponse s) :=
              List.mem_of_mem_getLast? (by simp [h3])
            exact Or.inr ⟨c, rfl, boundaryLetters_range _ none c hmem⟩
          | none =>
            cases h4 : List.find? isChoice (normalizeResponse s) with
            | some c => exact Or.inr ⟨c, rfl, List.find?_some h4⟩
            | none => exact Or.inl rfl

/-- C10: the extractor of `eval_mmlu.py` and the extractor of `test_api.py`
return the same result on every input, including the absent one: the two
functions are extensionally equal. -/
theorem extractors_agree :
    ∀ r, extract_answer_from_response r = extract_answer r := by
  intro r
  cases r with
  | none => rfl
  | some s => rfl

/-- C6: if the normalized response contains the boxed marker for letter `x`
(and for no other letter), the text is not an exact single letter, and — the
boxed pattern being the first structured pattern, with nothing before it in
tier order but the exact-letter tier — extraction returns `x`. -/
theorem extract_boxed (s : List Char) (x : Char)
    (hx : isChoice x = true)
    (hbox : subOccurs (boxedLit x) (normalizeResponse s) = true)
    (huniq : ∀ y, isChoice y = true →
      subOccurs (boxedLit y) (normalizeResponse s) = true → y = x)
    (hexact : exactLetter (normalizeResponse s) = none) :
    extract_answer (some s) = some x := by
  have hs : ¬ s.isEmpty = true := by
    intro hse
    have hnil : s = [] := List.isEmpty_iff.mp hse
    rw [hnil, show normalizeResponse [] = [] from rfl,
      show subOccurs (boxedLit x) [] = false from rfl] at hbox
    cases hbox
  rw [extract_answer_eq s hs, hexact]
  obtain ⟨pre, post, hp⟩ := (subOccurs_iff _ _).mp hbox
  obtain ⟨c, hc⟩ := searchScan_boxed_complete _ x hx ⟨pre, post, hp⟩
  obtain ⟨hcc, pre2, post2, hp2⟩ := searchScan_boxed_sound _ c hc
  have hcx : c = x := huniq c hcc ((subOccurs_iff _ _).mpr ⟨pre2, post2, hp2⟩)
  subst hcx
  have hfind : List.findSome? (fun p => p (normalizeResponse s)) patternSearches
      = some c := by
    unfold patternSearches
    exact findSome_head _ _ _ c hc
  rw [hfind]

theorem extract_boxed_witness :
    extract_answer (some ['\\', 'B', 'O', 'X', 'E', 'D', '\x7b', 'C', '\x7d'])
      = some 'C' :=
  extract_boxed _ 'C' (by decide) (by decide)
    (fun y hy hocc => by
      have hy4 : y = 'A' ∨ y = 'B' ∨ y = 'C' ∨ y = 'D' := by
        simpa [isChoice, choiceLetters] using hy
      rcases hy4 with rfl | rfl | rfl | rfl
      · exact absurd hocc (by decide)
      · exact absurd hocc (by decide)
      · rfl
      · exact absurd hocc (by decide))
    (by decide)

/-- C1 counterexample: in the response "SO B: NO, C" the normalized text is
not a single letter, none of the nine structured patterns preceding the
letter-colon-or-dash pattern matches, and the text contains the letter B
immediately followed by a colon — yet extraction returns C (tier 3's last
standalone letter), not B, because the letter-colon-or-dash pattern of the
source is anchored to the start of the text and B is not at the start. -/
theorem letterColonDash_midtext_loses :
    (normalizeResponse "SO B: NO, C".toList =
      "SO ".toList ++ ['B', ':'] ++ " NO, C".toList) ∧
    exactLetter (normalizeResponse "SO B: NO, C".toList) = none ∧
    ((patternSearches.take 9).all
      (fun p => (p (normalizeResponse "SO B: NO, C".toList)).isNone)) = true ∧
    isChoice 'B' = true ∧
    extract_answer (some "SO B: NO, C".toList) = some 'C' ∧
    some 'C' ≠ some 'B' :=
  ⟨by decide, by decide, by decide, by decide, by decide, by decide⟩

/-- C1 (amended): the letter-colon-or-dash pattern is anchored to the start
of the normalized text.  For every response whose normalized text is not an
exact single letter and matches none of the nine earlier tier-2 patterns, if
the first character of the normalized text is a letter in {A,B,C,D}
immediately followed by a colon or dash, extraction returns that letter via
the tier-2 marker, taking precedence over tier 3. -/
theorem extract_letterColonDash (s : List Char) (x d : Char) (rest : List Char)
    (ht : normalizeResponse s = x :: d :: rest)
    (hx : isChoice x = true)
    (hd : d = ':' ∨ d = '-')
    (hexact : exactLetter (normalizeResponse s) = none)
    (h9 : ∀ p ∈ patternSearches.take 9, p (normalizeResponse s) = none) :
    extract_answer (some s) = some x := by
  have hs : ¬ s.isEmpty = true := by
    intro hse
    rw [List.isEmpty_iff.mp hse, show normalizeResponse [] = [] from rfl] at ht
    cases ht
  rw [extract_answer_eq s hs, hexact]
  have hdns : isSpacePy d = false := by rcases hd with rfl | rfl <;> rfl
  have h10 : patLetterColonDash (normalizeResponse s) = some x := by
    rw [ht]
    simp only [patLetterColonDash]
    rw [if_pos hx, List.dropWhile_cons, hdns]
    simp only [Bool.false_eq_true, if_false]
    rw [if_pos hd.symm]
  have h0 := h9 (searchScan boxedAt) (by simp [patternSearches])
  have h1 := h9 (searchScan (litWsLetterAt ['答', '案', '是']))
    (by simp [patternSearches])
  have h2 := h9 (searchScan (litWsLetterAt ['选', '择']))
    (by simp [patternSearches])
  have h3 := h9 (searchScan (litWsLetterAt ['答', '案', '：']))
    (by simp [patternSearches])
  have h4 := h9 (searchScan (litWsLetterAt ['选', '择', '：']))
    (by simp [patternSearches])
  have h5 := h9 (searchScan (litWsLetterAt "THE CORRECT ANSWER IS".toList))
    (by simp [patternSearches])
  have h6 := h9 (searchScan (litWsLetterAt "ANSWER:".toList))
    (by simp [patternSearches])
  have h7 := h9 (searchScan (litWsLetterAt "ANSWER IS".toList))
    (by simp [patternSearches])
  have h8 := h9 patLetterDot (by simp [patternSearches])
  have hfind : List.findSome? (fun p => p (normalizeResponse s)) patternSearches
      = some x := by
    unfold patternSearches
    rw [findSome_skip (fun p : List Char → Option Char => p (normalizeResponse s)) _ _ h0,
      findSome_skip (fun p : List Char → Option Char => p (normalizeResponse s)) _ _ h1,
      findSome_skip (fun p : List Char → Option Char => p (normalizeResponse s)) _ _ h2,
      findSome_skip (fun p : List Char → Option Char => p (normalizeResponse s)) _ _ h3,
      findSome_skip (fun p : List Char → Option Char => p (normalizeResponse s)) _ _ h4,
      findSome_skip (fun p : List Char → Option Char => p (normalizeResponse s)) _ _ h5,
      findSome_skip (fun p : List Char → Option Char => p (normalizeResponse s)) _ _ h6,
      findSome_skip (fun p : List Char → Option Char => p (normalizeResponse s)) _ _ h7,
      findSome_skip (fun p : List Char → Option Char => p (normalizeResponse s)) _ _ h8]
    exact findSome_head _ _ _ x h10
  rw [hfind]

theorem extract_letterColonDash_witness :
    extract_answer (some "B: HELLO".toList) = some 'B' :=
  extract_letterColonDash "B: HELLO".toList 'B' ':' " HELLO".toList
    (by decide) (by decide) (Or.inl rfl) (by decide) (by decide)

/-- Closed form of `evaluate_dataset` on a non-empty file with all required
columns: the detail/error/count fields come from the evaluated prefix of the
selected rows, and the accuracy is recomputed only when no exception ended
the loop early. -/
lemma evaluate_dataset_run (api : Nat → Option (List Char)) (exc : Option Nat)
    (sampler : List Row → Nat → List Row) (fieldnames : List (List Char))
    (rows : List Row) (ss : Option Nat)
    (h1 : rows ≠ []) (h2 : missingColumns fieldnames = []) :
    evaluate_dataset api exc sampler fieldnames rows ss =
      { correct := ((detailsOf api 0 (takeToExc exc 0 (chosenRows sampler rows ss))).filter
            (fun d => d.is_correct)).length,
        total := (takeToExc exc 0 (chosenRows sampler rows ss)).length,
        accuracy :=
          if excHit exc 0 (chosenRows sampler rows ss) then 0
          else if (takeToExc exc 0 (chosenRows sampler rows ss)).length > 0 then
            (((detailsOf api 0 (takeToExc exc 0 (chosenRows sampler rows ss))).filter
                (fun d => d.is_correct)).length : ℚ) /
              ((takeToExc exc 0 (chosenRows sampler rows ss)).length : ℚ)
          else 0,
        details := detailsOf api 0 (takeToExc exc 0 (chosenRows sampler rows ss)),
        errors := (detailsOf api 0 (takeToExc exc 0 (chosenRows sampler rows ss))).filter
          (fun d => !d.is_correct) } := by
  simp only [evaluate_dataset]
  rw [if_neg h1, if_neg (by simp [h2])]
  rw [runRowsAux_spec api exc (chosenRows sampler rows ss) 0 initResults]
  simp only [initResults, Nat.zero_add, List.nil_append]
  by_cases hec : excHit exc 0 (chosenRows sampler rows ss) = true
  · simp [hec]
  · simp only [Bool.not_eq_true] at hec
    by_cases htot : (takeToExc exc 0 (chosenRows sampler rows ss)).length > 0
    · simp [hec, htot]
    · simp [hec, htot]

lemma detailsOf_mem (api : Nat → Option (List Char)) :
    ∀ (l : List Row) (i : Nat) (d : Detail),
      d ∈ detailsOf api i l → ∃ j row, d = mkDetail j row (api j) := by
  intro l
  induction l with
  | nil =>
    intro i d h
    simp [detailsOf] at h
  | cons row rest ih =>
    intro i d h
    rw [detailsOf] at h
    rcases List.mem_cons.mp h with rfl | hmem
    · exact ⟨i, row, rfl⟩
    · exact ih (i + 1) d hmem

lemma mkDetail_correct_iff (i : Nat) (row : Row) (resp : Option (List Char)) :
    (mkDetail i row resp).is_correct = true ↔
      ∃ c, (mkDetail i row resp).predicted_answer = some c ∧
        [c] = (mkDetail i row resp).correct_answer := by
  cases hp : extract_answer resp with
  | none => simp [mkDetail, hp]
  | some c => simp [mkDetail, hp]

/-- C2: for every RowResult produced by `evaluate_dataset` — under any
model-client behaviour, any sampling, any exception point — the correct flag
is true iff the predicted label is non-absent and equals the row's
ground-truth label; in particular a row with an absent predicted label is
never scored correct. -/
theorem rowresult_correct_iff (api : Nat → Option (List Char)) (exc : Option Nat)
    (sampler : List Row → Nat → List Row) (fieldnames : List (List Char))
    (rows : List Row) (ss : Option Nat) (d : Detail)
    (hd : d ∈ (evaluate_dataset api exc sampler fieldnames rows ss).details) :
    d.is_correct = true ↔
      ∃ c, d.predicted_answer = some c ∧ [c] = d.correct_answer := by
  by_cases h1 : rows = []
  · subst h1
    simp [evaluate_dataset, initResults] at hd
  · by_cases h2 : missingColumns fieldnames = []
    · rw [evaluate_dataset_run api exc sampler fieldnames rows ss h1 h2] at hd
      obtain ⟨j, row, rfl⟩ := detailsOf_mem api _ 0 d hd
      exact mkDetail_correct_iff j row (api j)
    · simp [evaluate_dataset, h1, h2, initResults] at hd

theorem rowresult_correct_iff_witness :
    (mkDetail 0 wRow (some "A".toList)
      ∈ (evaluate_dataset wApi none wSampler requiredColumns [wRow] none).details) ∧
    ((mkDetail 0 wRow (some "A".toList)).is_correct = true ↔
      ∃ c, (mkDetail 0 wRow (some "A".toList)).predicted_answer = some c ∧
        [c] = (mkDetail 0 wRow (some "A".toList)).correct_answer) :=
  ⟨by decide,
   rowresult_correct_iff wApi none wSampler requiredColumns [wRow] none
     (mkDetail 0 wRow (some "A".toList)) (by decide)⟩

/-- C9: the detail sequence lists the RowResults in the order the rows were
evaluated, one per evaluated row (built by `detailsOf` over the evaluated
prefix of the selected rows), and the error sequence is exactly the
subsequence of details whose correct flag is false, in the same relative
order. -/
theorem details_order_errors_filter (api : Nat → Option (List Char))
    (exc : Option Nat) (sampler : List Row → Nat → List Row)
    (fieldnames : List (List Char)) (rows : List Row) (ss : Option Nat)
    (h1 : rows ≠ []) (h2 : missingColumns fieldnames = []) :
    (evaluate_dataset api exc sampler fieldnames rows ss).details =
      detailsOf api 0 (takeToExc exc 0 (chosenRows sampler rows ss)) ∧
    (evaluate_dataset api exc sampler fieldnames rows ss).errors =
      ((evaluate_dataset api exc sampler fieldnames rows ss).details).filter
        (fun d => !d.is_correct) := by
  rw [evaluate_dataset_run api exc sampler fieldnames rows ss h1 h2]
  exact ⟨rfl, rfl⟩

theorem details_order_errors_filter_witness :
    (evaluate_dataset wApi none wSampler requiredColumns [wRow, wRow] none).details =
      detailsOf wApi 0 (takeToExc none 0 (chosenRows wSampler [wRow, wRow] none)) ∧
    (evaluate_dataset wApi none wSampler requiredColumns [wRow, wRow] none).errors =
      ((evaluate_dataset wApi none wSampler requiredColumns [wRow, wRow] none).details).filter
        (fun d => !d.is_correct) :=
  details_order_errors_filter wApi none wSampler requiredColumns [wRow, wRow] none
    (by decide) (by decide)

/-- C3 counterexample: one row, answered correctly, with the environment
raising an exception at the progress point of row 0: the returned record has
correct = 1 and total = 1 but its accuracy is the initial 0.0 (the early
return skips the final accuracy computation), which differs from 1/1. -/
theorem accuracy_stale_on_exception :
    (evaluate_dataset wApi (some 0) wSampler requiredColumns [wRow] none).correct = 1 ∧
    (evaluate_dataset wApi (some 0) wSampler requiredColumns [wRow] none).total = 1 ∧
    (evaluate_dataset wApi (some 0) wSampler requiredColumns [wRow] none).accuracy = 0 ∧
    (0 : ℚ) ≠ (1 : ℚ) / (1 : ℚ) :=
  ⟨by decide, by decide, by decide, by norm_num⟩

/-- C3 (amended): total_count counts exactly the rows actually evaluated
(post-sample, post-exception; row-level skips do not arise for well-formed
rows).  When no mid-run exception ends the loop early, the accuracy equals
correct_count/total_count for total_count > 0 and 0.0 for total_count = 0;
when a mid-run exception ends evaluation early, the accuracy field keeps its
initial value 0.0 regardless of the counts. -/
theorem accuracy_over_evaluated_rows (api : Nat → Option (List Char))
    (exc : Option Nat) (sampler : List Row → Nat → List Row)
    (fieldnames : List (List Char)) (rows : List Row) (ss : Option Nat)
    (h1 : rows ≠ []) (h2 : missingColumns fieldnames = []) :
    (evaluate_dataset api exc sampler fieldnames rows ss).total =
      (takeToExc exc 0 (chosenRows sampler rows ss)).length ∧
    (excHit exc 0 (chosenRows sampler rows ss) = false →
      (evaluate_dataset api exc sampler fieldnames rows ss).accuracy =
        (if 0 < (evaluate_dataset api exc sampler fieldnames rows ss).total then
          ((evaluate_dataset api exc sampler fieldnames rows ss).correct : ℚ) /
            ((evaluate_dataset api exc sampler fieldnames rows ss).total : ℚ)
        else 0)) ∧
    (excHit exc 0 (chosenRows sampler rows ss) = true →
      (evaluate_dataset api exc sampler fieldnames rows ss).accuracy = 0) := by
  rw [evaluate_dataset_run api exc sampler fieldnames rows ss h1 h2]
  refine ⟨rfl, ?_, ?_⟩
  · intro hec
    simp [hec]
  · intro hec
    simp [hec]

theorem accuracy_over_evaluated_rows_witness :
    (evaluate_dataset wApi none wSampler requiredColumns [wRow] none).total =
      (takeToExc none 0 (chosenRows wSampler [wRow] none)).length ∧
    (evaluate_dataset wApi none wSampler requiredColumns [wRow] none).accuracy =
      (if 0 < (evaluate_dataset wApi none wSampler requiredColumns [wRow] none).total then
        ((evaluate_dataset wApi none wSampler requiredColumns [wRow] none).correct : ℚ) /
          ((evaluate_dataset wApi none wSampler requiredColumns [wRow] none).total : ℚ)
      else 0) :=
  ⟨(accuracy_over_evaluated_rows wApi none wSampler requiredColumns [wRow] none
      (by decide) (by decide)).1,
   (accuracy_over_evaluated_rows wApi none wSampler requiredColumns [wRow] none
      (by decide) (by decide)).2.1 rfl⟩

/-- C8 counterexample: a sample_size of 0 is falsy in Python, so with a
one-row dataset and sample_size 0 (which is smaller than the dataset) the
evaluator does not sample at all: it evaluates 1 row, not exactly 0 rows. -/
theorem sample_size_zero_evaluates_all :
    0 < ([wRow] : List Row).length ∧
    (evaluate_dataset wApi none wSampler requiredColumns [wRow] (some 0)).total = 1 ∧
    (1 : Nat) ≠ 0 :=
  ⟨by decide, by decide, by decide⟩

/-- C8 (amended): when sample_size k is provided, nonzero, and smaller than
the dataset, the `random.sample` outcome (k rows drawn without replacement —
the library contract of `random.sample`, taken as hypotheses on the sampler
parameter) is exactly what is evaluated: total_count = k, one detail per
sampled row, and accuracy computed over those k rows; when sample_size is
absent, zero (falsy), or at least the dataset size, all rows are evaluated
in file order. -/
theorem sampling_evaluates_k_rows (api : Nat → Option (List Char))
    (sampler : List Row → Nat → List Row) (fieldnames : List (List Char))
    (rows : List Row) (k : Nat)
    (h1 : rows ≠ []) (h2 : missingColumns fieldnames = []) :
    (k ≠ 0 → k < rows.length → (sampler rows k).length = k →
      List.Subperm (sampler rows k) rows →
      (evaluate_dataset api none sampler fieldnames rows (some k)).total = k ∧
      (evaluate_dataset api none sampler fieldnames rows (some k)).details =
        detailsOf api 0 (sampler rows k) ∧
      (evaluate_dataset api none sampler fieldnames rows (some k)).accuracy =
        ((evaluate_dataset api none sampler fieldnames rows (some k)).correct : ℚ)
          / (k : ℚ)) ∧
    ((k = 0 ∨ rows.length ≤ k) →
      (evaluate_dataset api none sampler fieldnames rows (some k)).details =
        detailsOf api 0 rows ∧
      (evaluate_dataset api none sampler fieldnames rows (some k)).total =
        rows.length) ∧
    ((evaluate_dataset api none sampler fieldnames rows none).details =
        detailsOf api 0 rows ∧
      (evaluate_dataset api none sampler fieldnames rows none).total =
        rows.length) := by
  refine ⟨?_, ?_, ?_⟩
  · intro hk0 hklt hlen hsub
    have hch : chosenRows sampler rows (some k) = sampler rows k := by
      simp [chosenRows, hk0, hklt]
    rw [evaluate_dataset_run api none sampler fieldnames rows (some k) h1 h2]
    simp only [takeToExc, excHit, hch]
    refine ⟨hlen, trivial, ?_⟩
    simp only [hlen]
    have hkpos : 0 < k := Nat.pos_of_ne_zero hk0
    simp [hkpos]
  · intro hk
    have hch : chosenRows sampler rows (some k) = rows := by
      simp only [chosenRows]
      rw [if_neg]
      rintro ⟨hne, hlt⟩
      rcases hk with rfl | hge
      · exact hne rfl
      · omega
    rw [evaluate_dataset_run api none sampler fieldnames rows (some k) h1 h2]
    simp only [takeToExc, excHit, hch]
    exact ⟨trivial, trivial⟩
  · rw [evaluate_dataset_run api none sampler fieldnames rows none h1 h2]
    simp only [takeToExc, excHit, chosenRows]
    exact ⟨trivial, trivial⟩

theorem sampling_evaluates_k_rows_witness :
    (evaluate_dataset wApi none wSampler requiredColumns [wRow, wRow] (some 1)).total = 1 ∧
    (evaluate_dataset wApi none wSampler requiredColumns [wRow, wRow] (some 1)).details =
      detailsOf wApi 0 (wSampler [wRow, wRow] 1) ∧
    (evaluate_dataset wApi none wSampler requiredColumns [wRow, wRow] (some 1)).accuracy =
      ((evaluate_dataset wApi none wSampler requiredColumns [wRow, wRow] (some 1)).correct : ℚ)
        / (1 : ℚ) :=
  (sampling_evaluates_k_rows wApi wSampler requiredColumns [wRow, wRow] 1
      (by decide) (by decide)).1
    (by decide) (by decide) (by decide)
    (List.Sublist.subperm (List.take_sublist 1 [wRow, wRow]))

/-- C7: a dataset file missing a required column yields the all-zero initial
result record (correct 0, total 0, accuracy 0.0, empty details and errors)
without evaluating anything, and the main loop's running totals over the
other datasets are unaffected by its presence: the run continues past it. -/
theorem missing_column_zero_result (api : Nat → Option (List Char))
    (exc : Option Nat) (sampler : List Row → Nat → List Row)
    (fieldnames : List (List Char)) (rows : List Row) (ss : Option Nat)
    (col : List Char) (hcol : col ∈ requiredColumns)
    (hmiss : fieldnames.contains col = false) :
    evaluate_dataset api exc sampler fieldnames rows ss = initResults ∧
    initResults.correct = 0 ∧ initResults.total = 0 ∧
    initResults.accuracy = 0 ∧ initResults.details = [] ∧
    initResults.errors = [] ∧
    ∀ pre post : List Results,
      mainTotals (pre ++ [evaluate_dataset api exc sampler fieldnames rows ss] ++ post) =
        mainTotals (pre ++ post) := by
  have hmem : col ∈ missingColumns fieldnames :=
    List.mem_filter.mpr ⟨hcol, by rw [hmiss]; rfl⟩
  have hne : missingColumns fieldnames ≠ [] := by
    intro h
    rw [h] at hmem
    cases hmem
  have heval : evaluate_dataset api exc sampler fieldnames rows ss = initResults := by
    by_cases h1 : rows = []
    · simp [evaluate_dataset, h1]
    · simp [evaluate_dataset, h1, hne]
  refine ⟨heval, rfl, rfl, rfl, rfl, rfl, ?_⟩
  intro pre post
  rw [heval]
  simp [mainTotals, List.foldl_append, initResults]

theorem missing_column_zero_result_witness :
    evaluate_dataset wApi none wSampler
        ["input".toList, "A".toList, "B".toList, "C".toList, "D".toList]
        [wRow] none = initResults :=
  (missing_column_zero_result wApi none wSampler
    ["input".toList, "A".toList, "B".toList, "C".toList, "D".toList]
    [wRow] none "target".toList (by decide) (by decide)).1

/-- C4 counterexample: aggregating zero datasets leaves the overall accuracy
absent — the source sets the overall_accuracy key only when total_questions
is positive — rather than present with the value 0.0. -/
theorem empty_aggregate_accuracy_absent :
    (mainAggregate []).total_correct = 0 ∧
    (mainAggregate []).total_questions = 0 ∧
    (mainAggregate []).overall_accuracy = none ∧
    (none : Option ℚ) ≠ some 0 :=
  ⟨rfl, rfl, rfl, by decide⟩

/-- C4 (amended): aggregating zero datasets yields total_correct = 0 and
total_questions = 0, and the overall accuracy is guarded against division by
zero by being omitted entirely (the key is set only when total_questions >
0), not by being reported as 0.0. -/
theorem empty_aggregate_totals_zero :
    mainAggregate [] =
      { total_correct := 0, total_questions := 0, dataset_results := [],
        overall_accuracy := none } :=
  rfl
